import Mathlib

/-!
A shallow embedding of the stderrlog crate (src/lib.rs): a logger with
verbosity-based level filtering, a sorted module allow-list queried by binary
search, optional timestamps, and per-thread colored writers.  External
collaborators (the log crate's level types and global registration, the
termcolor stream) are embedded through their documented contracts; fallible
stream operations are parameterised by an explicit behaviour record.
-/

namespace Stderrlog

/-- Rust `&str`, modelled as its sequence of characters.  Rust's `Ord` on
`str` compares UTF-8 bytes; on valid UTF-8 that order coincides with the
codepoint-lexicographic order implemented by `strCmp` below, and a byte-level
`starts_with` between whole strings coincides with the character-level prefix
test `strStartsWith`. -/
abbrev RStr := List Char

/-- View of a Lean string literal as an `RStr`. -/
def rstr (s : String) : RStr :=
  s.data

/-- Rust `str::cmp`: lexicographic comparison, characters compared by
codepoint. -/
def strCmp : RStr → RStr → Ordering
  | [], [] => .eq
  | [], _ :: _ => .lt
  | _ :: _, [] => .gt
  | a :: s, b :: t =>
    if a.toNat < b.toNat then .lt
    else if b.toNat < a.toNat then .gt
    else strCmp s t

/-- `strCmp s t = .lt` as a Bool; counts the elements below a target. -/
def strLtB (s t : RStr) : Bool :=
  strCmp s t == Ordering.lt

/-- Rust `str::starts_with` with a string pattern: literal prefix test. -/
def strStartsWith : RStr → RStr → Bool
  | _, [] => true
  | [], _ :: _ => false
  | a :: s, b :: t => a == b && strStartsWith s t

/-- The strict order `strCmp · · = .lt` under which the module registry is
kept sorted. -/
def sLt (s t : RStr) : Prop :=
  strCmp s t = .lt

instance : DecidableRel sLt :=
  fun s t => inferInstanceAs (Decidable (strCmp s t = .lt))

/-- `log::Level`: severity of a single event, `Error` least verbose. -/
inductive Level where
  | Error
  | Warn
  | Info
  | Debug
  | Trace
deriving DecidableEq

/-- `log::LevelFilter`: a threshold; `Off` rejects everything. -/
inductive LevelFilter where
  | Off
  | Error
  | Warn
  | Info
  | Debug
  | Trace
deriving DecidableEq

/-- The usize value by which the log crate compares a `Level` (`Error` = 1). -/
def Level.toNum : Level → Nat
  | .Error => 1
  | .Warn => 2
  | .Info => 3
  | .Debug => 4
  | .Trace => 5

/-- The usize value of a `LevelFilter` (`Off` = 0). -/
def LevelFilter.toNum : LevelFilter → Nat
  | .Off => 0
  | .Error => 1
  | .Warn => 2
  | .Info => 3
  | .Debug => 4
  | .Trace => 5

/-- `stderrlog::Timestamp` (src/lib.rs lines 146-155): timestamp granularity. -/
inductive Timestamp where
  | Off
  | Second
  | Microsecond
  | Nanosecond
deriving DecidableEq

/-- `termcolor::ColorChoice`. -/
inductive ColorChoice where
  | Always
  | AlwaysAnsi
  | Never
  | Auto
deriving DecidableEq

/-- The five `termcolor::Color`s the logger uses. -/
inductive Color where
  | Red
  | Magenta
  | Yellow
  | Cyan
  | Blue
deriving DecidableEq

/-- `StdErrLog` (src/lib.rs lines 158-165).  The `CachedThreadLocal` writer
registry is modelled as the list of thread ids that currently own a sink;
a fresh `CachedThreadLocal::new()` is the empty list. -/
structure StdErrLog where
  verbosity : LevelFilter
  quiet : Bool
  timestamp : Timestamp
  modules : List RStr
  writer : List Nat
  color_choice : ColorChoice
deriving DecidableEq

/-- `StdErrLog::new` (lines 263-272). -/
def StdErrLog.new : StdErrLog :=
  { verbosity := .Error
    quiet := false
    timestamp := .Off
    modules := []
    writer := []
    color_choice := .Auto }

/-- `stderrlog::new` (lines 372-374) and `Default for StdErrLog` (lines
365-369) both delegate to `StdErrLog::new`. -/
def StdErrLog.default : StdErrLog :=
  StdErrLog.new

/-- `StdErrLog::verbosity` (lines 275-286): map a verbosity count to a level
filter and store it. -/
def StdErrLog.setVerbosity (self : StdErrLog) (verbosity : Nat) : StdErrLog :=
  let log_lvl : LevelFilter :=
    match verbosity with
    | 0 => .Error
    | 1 => .Warn
    | 2 => .Info
    | 3 => .Debug
    | _ => .Trace
  { self with verbosity := log_lvl }

/-- `StdErrLog::quiet` (lines 289-292). -/
def StdErrLog.setQuiet (self : StdErrLog) (quiet : Bool) : StdErrLog :=
  { self with quiet := quiet }

/-- `StdErrLog::timestamp` (lines 295-298). -/
def StdErrLog.setTimestamp (self : StdErrLog) (timestamp : Timestamp) : StdErrLog :=
  { self with timestamp := timestamp }

/-- `StdErrLog::color` (lines 301-304). -/
def StdErrLog.setColorChoice (self : StdErrLog) (choice : ColorChoice) : StdErrLog :=
  { self with color_choice := choice }

/-- The loop of core Rust's `slice::binary_search_by` with the comparator
`|module| module.cmp(&module_path)`: `left`/`right` bracket the search window
and `mid = left + (right - left) / 2`.  The fuel only bounds the number of
iterations; it never runs out when it exceeds the window size. -/
def bsearchGo (l : List RStr) (p : RStr) : Nat → Nat → Nat → Nat ⊕ Nat
  | 0, left, _ => .inr left
  | fuel + 1, left, right =>
    if left < right then
      let mid := left + (right - left) / 2
      let m := l.getD mid p
      if strCmp m p = .lt then bsearchGo l p fuel (mid + 1) right
      else if strCmp m p = .gt then bsearchGo l p fuel left mid
      else .inl mid
    else .inr left

/-- `slice::binary_search` over the whole list: `.inl i` is `Ok(i)` (element
at index `i` equals the target), `.inr i` is `Err(i)` (insertion point). -/
def binarySearch (l : List RStr) (p : RStr) : Nat ⊕ Nat :=
  bsearchGo l p (l.length + 1) 0 l.length

/-- `StdErrLog::module` (lines 307-314): binary-search the name and insert it
at the reported insertion point only when it was not found. -/
def StdErrLog.addModule (self : StdErrLog) (module : RStr) : StdErrLog :=
  match binarySearch self.modules module with
  | .inl _ => self
  | .inr i => { self with modules := self.modules.insertIdx i module }

/-- `StdErrLog::modules` (lines 317-325): register each name in turn. -/
def StdErrLog.addModules (self : StdErrLog) (modules : List RStr) : StdErrLog :=
  modules.foldl StdErrLog.addModule self

/-- `StdErrLog::log_level_filter` (lines 327-333). -/
def StdErrLog.log_level_filter (self : StdErrLog) : LevelFilter :=
  if self.quiet then .Off else self.verbosity

/-- `Log::enabled` (lines 191-193): `metadata.level() <= self.log_level_filter()`;
the log crate compares the two enums by usize value. -/
def StdErrLog.enabled (self : StdErrLog) (level : Level) : Bool :=
  level.toNum ≤ self.log_level_filter.toNum

/-- `StdErrLog::includes_module` (lines 335-356). -/
def StdErrLog.includes_module (self : StdErrLog) (module_path : RStr) : Bool :=
  if self.modules.isEmpty then true
  else
    match binarySearch self.modules module_path with
    | .inl _ => true
    | .inr 0 => false
    | .inr (i + 1) => strStartsWith module_path (self.modules.getD i [])

/-- `Clone for StdErrLog` (lines 180-188): copy every field except the writer
registry, which restarts empty (`CachedThreadLocal::new()`). -/
def StdErrLog.clone (self : StdErrLog) : StdErrLog :=
  { self with writer := [] }

/-- A `log::Record`: level, optional module path, pre-formatted message. -/
structure Record where
  level : Level
  module_path : Option RStr
  args : String
deriving DecidableEq

/-- Behaviour of the underlying colored stream during one call: whether each
fallible operation (`set_color`, the `write!`/`writeln!` writes, `reset`)
succeeds. -/
structure StreamBehavior where
  setColorOk : Bool
  writeOk : Bool
  resetOk : Bool
deriving DecidableEq

/-- One observable action of the per-thread sink. -/
inductive OutAction where
  | setColor (c : Color)
  | writeTimestamp (t : Timestamp)
  | writeLine (lvl : Level) (msg : String)
  | resetColor
deriving DecidableEq

/-- Result of one `log` call: a normal return carrying the emitted actions,
or a panic raised by an `expect` in the source. -/
inductive LogResult where
  | returned (out : List OutAction)
  | panicked (msg : String)
deriving DecidableEq

/-- Severity-to-color table (lines 215-221). -/
def colorFor : Level → Color
  | .Error => .Red
  | .Warn => .Magenta
  | .Info => .Yellow
  | .Debug => .Cyan
  | .Trace => .Blue

/-- `Log::log` (lines 195-248).  `set_color(..).expect("failed to set color")`
and `reset().expect("failed to reset the color")` panic when the stream
operation fails; the timestamp and message writes discard their results
(`let _ = write!(..)`), so `env.writeOk` influences nothing. -/
def StdErrLog.logRecord (self : StdErrLog) (env : StreamBehavior) (record : Record) :
    LogResult :=
  if !(self.enabled record.level) then .returned []
  else
    let should_log :=
      match record.module_path with
      | some module => self.includes_module module
      | none => true
    if should_log then
      if !env.setColorOk then .panicked "failed to set color"
      else
        let tsActs : List OutAction :=
          match self.timestamp with
          | .Off => []
          | t => [.writeTimestamp t]
        if !env.resetOk then .panicked "failed to reset the color"
        else
          .returned ([.setColor (colorFor record.level)] ++ tsActs ++
            [.writeLine record.level record.args, .resetColor])
    else .returned []

/-- The log crate's process-wide state: the atomic max-level and the installed
boxed-logger slot. -/
structure GlobalState where
  maxLevel : LevelFilter
  logger : Option StdErrLog
deriving DecidableEq

/-- `log::SetLoggerError`. -/
inductive SetLoggerError where
  | mk
deriving DecidableEq

deriving instance DecidableEq for Except

/-- `StdErrLog::init` (lines 359-362): first `log::set_max_level(self.log_level_filter())`
(unconditional), then `log::set_boxed_logger(Box::new(self.clone()))`, which
fails and installs nothing when a logger is already present. -/
def StdErrLog.init (self : StdErrLog) (g : GlobalState) :
    Except SetLoggerError Unit × GlobalState :=
  let g1 : GlobalState := { g with maxLevel := self.log_level_filter }
  match g1.logger with
  | some _ => (.error .mk, g1)
  | none => (.ok (), { g1 with logger := some self.clone })

/-! ### Order facts about `strCmp` -/

theorem charEq_of_toNat_eq {a b : Char} (h : a.toNat = b.toNat) : a = b :=
  Char.eq_of_val_eq (UInt32.eq_of_toBitVec_eq (BitVec.eq_of_toNat_eq h))

theorem strCmp_self (s : RStr) : strCmp s s = .eq := by
  induction s with
  | nil => rfl
  | cons a t ih => simp [strCmp, ih]

theorem strCmp_eq_iff {s t : RStr} : strCmp s t = .eq ↔ s = t := by
  induction s generalizing t with
  | nil => cases t <;> simp [strCmp]
  | cons a s ih =>
    cases t with
    | nil => simp [strCmp]
    | cons b t =>
      rcases Nat.lt_trichotomy a.toNat b.toNat with h | h | h
      · have hab : a ≠ b := fun he => by simp [he] at h
        simp [strCmp, h, hab]
      · have hab : a = b := charEq_of_toNat_eq h
        subst hab
        simp [strCmp, ih]
      · have hab : a ≠ b := fun he => by simp [he] at h
        simp [strCmp, Nat.lt_asymm h, h, hab]

theorem strCmp_gt_iff {s t : RStr} : strCmp s t = .gt ↔ strCmp t s = .lt := by
  induction s generalizing t with
  | nil => cases t <;> simp [strCmp]
  | cons a s ih =>
    cases t with
    | nil => simp [strCmp]
    | cons b t =>
      rcases Nat.lt_trichotomy a.toNat b.toNat with h | h | h
      · simp [strCmp, h, Nat.lt_asymm h]
      · have hab : a = b := charEq_of_toNat_eq h
        subst hab
        simp [strCmp, ih]
      · simp [strCmp, h, Nat.lt_asymm h]

theorem sLt_trans {a b c : RStr} (h1 : sLt a b) (h2 : sLt b c) : sLt a c := by
  induction a generalizing b c with
  | nil =>
    cases b with
    | nil => exact absurd h1 (by simp [sLt, strCmp])
    | cons y t =>
      cases c with
      | nil => exact absurd h2 (by simp [sLt, strCmp])
      | cons z u => simp [sLt, strCmp]
  | cons x s ih =>
    cases b with
    | nil => exact absurd h1 (by simp [sLt, strCmp])
    | cons y t =>
      cases c with
      | nil => exact absurd h2 (by simp [sLt, strCmp])
      | cons z u =>
        have e1 : strCmp (x :: s) (y :: t) = .lt := h1
        have e2 : strCmp (y :: t) (z :: u) = .lt := h2
        show strCmp (x :: s) (z :: u) = .lt
        simp only [strCmp] at e1 e2 ⊢
        by_cases hxy : x.toNat < y.toNat
        · by_cases hyz : y.toNat < z.toNat
          · rw [if_pos (by omega)]
          · rw [if_neg hyz] at e2
            by_cases hzy : z.toNat < y.toNat
            · rw [if_pos hzy] at e2
              exact absurd e2 (by simp)
            · rw [if_neg hzy] at e2
              rw [if_pos (by omega)]
        · rw [if_neg hxy] at e1
          by_cases hyx : y.toNat < x.toNat
          · rw [if_pos hyx] at e1
            exact absurd e1 (by simp)
          · rw [if_neg hyx] at e1
            by_cases hyz : y.toNat < z.toNat
            · rw [if_pos (by omega)]
            · rw [if_neg hyz] at e2
              by_cases hzy : z.toNat < y.toNat
              · rw [if_pos hzy] at e2
                exact absurd e2 (by simp)
              · rw [if_neg hzy] at e2
                rw [if_neg (by omega : ¬ x.toNat < z.toNat),
                  if_neg (by omega : ¬ z.toNat < x.toNat)]
                exact ih e1 e2

theorem sLt_irrefl (s : RStr) : ¬ sLt s s := by
  simp [sLt, strCmp_self]

theorem sLt_ne {s t : RStr} (h : sLt s t) : s ≠ t :=
  fun he => absurd (he ▸ h) (sLt_irrefl t)

theorem strLtB_iff {s t : RStr} : strLtB s t = true ↔ sLt s t := by
  unfold strLtB sLt
  cases strCmp s t <;> decide

/-! ### The binary-search contract on sorted registries -/

/-- The insertion point of `p` in `l`: the number of entries below `p`. -/
def insPoint (l : List RStr) (p : RStr) : Nat :=
  l.countP (fun m => strLtB m p)

theorem insPoint_le_length (l : List RStr) (p : RStr) : insPoint l p ≤ l.length :=
  List.countP_le_length _

theorem countP_eq_of_split {α : Type} (pr : α → Bool) :
    ∀ (l : List α) (n : Nat), n ≤ l.length →
      (∀ k, (hk : k < l.length) → k < n → pr l[k]) →
      (∀ k, (hk : k < l.length) → n ≤ k → ¬ pr l[k]) →
      l.countP pr = n := by
  intro l
  induction l with
  | nil =>
    intro n hn _ _
    have hn0 : n = 0 := by simpa using hn
    simp [hn0]
  | cons a t ih =>
    intro n hn h1 h2
    cases n with
    | zero =>
      rw [List.countP_eq_zero]
      intro x hx
      obtain ⟨k, hk, rfl⟩ := List.mem_iff_getElem.mp hx
      exact h2 k hk (Nat.zero_le k)
    | succ m =>
      have ha : pr a := by simpa using h1 0 (by simp) (Nat.succ_pos m)
      have ht : t.countP pr = m := by
        refine ih m (by simpa using hn) ?_ ?_
        · intro k hk hkm
          have := h1 (k + 1) (by simpa using Nat.succ_lt_succ hk)
            (Nat.succ_lt_succ hkm)
          simpa using this
        · intro k hk hmk
          have := h2 (k + 1) (by simpa using Nat.succ_lt_succ hk)
            (Nat.succ_le_succ hmk)
          simpa using this
      rw [List.countP_cons_of_pos _ _ ha, ht]

/-- One unfolding step of `bsearchGo` when fuel remains. -/
theorem bsearchGo_succ (l : List RStr) (p : RStr) (fuel left right : Nat) :
    bsearchGo l p (fuel + 1) left right =
      if left < right then
        if strCmp (l.getD (left + (right - left) / 2) p) p = .lt then
          bsearchGo l p fuel (left + (right - left) / 2 + 1) right
        else if strCmp (l.getD (left + (right - left) / 2) p) p = .gt then
          bsearchGo l p fuel left (left + (right - left) / 2)
        else .inl (left + (right - left) / 2)
      else .inr left := rfl

theorem bsearchGo_spec (l : List RStr) (p : RStr) (hs : l.Sorted sLt) :
    ∀ fuel left right, right ≤ l.length → left ≤ right → right - left < fuel →
      (∀ k, (hk : k < l.length) → k < left → sLt l[k] p) →
      (∀ k, (hk : k < l.length) → right ≤ k → sLt p l[k]) →
      ((∀ i, bsearchGo l p fuel left right = .inl i →
          ∃ hi : i < l.length, l[i] = p) ∧
        (∀ i, bsearchGo l p fuel left right = .inr i →
          i = insPoint l p ∧ p ∉ l)) := by
  intro fuel
  induction fuel with
  | zero =>
    intro left right _ _ hfuel _ _
    omega
  | succ fuel ih =>
    intro left right hr hlr hfuel hbelow habove
    by_cases hcond : left < right
    case neg =>
      have hleq : left = right := by omega
      have hres : bsearchGo l p (fuel + 1) left right = .inr left := by
        rw [bsearchGo_succ, if_neg hcond]
      refine ⟨?_, ?_⟩
      · intro i hi
        rw [hres] at hi
        cases hi
      · intro i hi
        rw [hres] at hi
        injection hi with hi
        subst hi
        constructor
        · symm
          refine countP_eq_of_split _ l left (by omega) ?_ ?_
          · intro k hk hki
            exact strLtB_iff.mpr (hbelow k hk hki)
          · intro k hk hik
            intro hw
            have h1 : sLt l[k] p := strLtB_iff.mp hw
            have h2 : sLt p l[k] := habove k hk (by omega)
            exact sLt_irrefl _ (sLt_trans h1 h2)
        · intro hp
          obtain ⟨k, hk, hkp⟩ := List.mem_iff_getElem.mp hp
          by_cases hki : k < left
          · exact sLt_irrefl p (hkp ▸ hbelow k hk hki)
          · exact sLt_irrefl p (hkp ▸ habove k hk (by omega))
    case pos =>
      obtain ⟨mid, hmiddef⟩ : ∃ m, left + (right - left) / 2 = m := ⟨_, rfl⟩
      have hmidlo : left ≤ mid := by omega
      have hmidlt : mid < right := by omega
      have hmidlen : mid < l.length := by omega
      have hg : l.getD mid p = l[mid] := by
        rw [List.getD_eq_getElem?_getD, List.getElem?_eq_getElem hmidlen]
        rfl
      rw [bsearchGo_succ, if_pos hcond, hmiddef, hg]
      have hmono : ∀ j k, (hj : j < l.length) → (hk : k < l.length) → j < k →
          sLt l[j] l[k] := by
        intro j k hj hk hjk
        have := List.Sorted.rel_get_of_lt hs
          (a := ⟨j, hj⟩) (b := ⟨k, hk⟩) (Fin.mk_lt_mk.mpr hjk)
        simpa using this
      cases hcj : strCmp l[mid] p with
      | lt =>
        rw [if_pos rfl]
        refine ih (mid + 1) right hr (by omega) (by omega) ?_ habove
        intro k hk hkm
        by_cases hkmid : k < mid
        · exact sLt_trans (hmono k mid hk hmidlen hkmid) hcj
        · have : k = mid := by omega
          subst this
          exact hcj
      | gt =>
        rw [if_neg (by decide), if_pos rfl]
        refine ih left mid (by omega) (by omega) (by omega) hbelow ?_
        intro k hk hmk
        by_cases hkmid : mid < k
        · exact sLt_trans (strCmp_gt_iff.mp hcj) (hmono mid k hmidlen hk hkmid)
        · have : k = mid := by omega
          subst this
          exact strCmp_gt_iff.mp hcj
      | eq =>
        rw [if_neg (by decide), if_neg (by decide)]
        refine ⟨?_, ?_⟩
        · intro i hi
          injection hi with hi
          subst hi
          exact ⟨hmidlen, strCmp_eq_iff.mp hcj⟩
        · intro i hi
          cases hi

/-- `Ok(i)` of `binary_search` on a sorted registry is an exact match. -/
theorem binarySearch_inl {l : List RStr} {p : RStr} (hs : l.Sorted sLt) {i : Nat}
    (h : binarySearch l p = .inl i) : ∃ hi : i < l.length, l[i] = p := by
  have := bsearchGo_spec l p hs (l.length + 1) 0 l.length
    (le_refl _) (Nat.zero_le _) (by omega)
    (by intro k hk hk0; omega) (by intro k hk hlk; omega)
  exact this.1 i h

/-- `Err(i)` of `binary_search` on a sorted registry reports the insertion
point, and the target is absent. -/
theorem binarySearch_inr {l : List RStr} {p : RStr} (hs : l.Sorted sLt) {i : Nat}
    (h : binarySearch l p = .inr i) : i = insPoint l p ∧ p ∉ l := by
  have := bsearchGo_spec l p hs (l.length + 1) 0 l.length
    (le_refl _) (Nat.zero_le _) (by omega)
    (by intro k hk hk0; omega) (by intro k hk hlk; omega)
  exact this.2 i h

/-- On a sorted registry, `binary_search` finds every present target. -/
theorem binarySearch_of_mem {l : List RStr} {p : RStr} (hs : l.Sorted sLt)
    (hp : p ∈ l) : ∃ i, binarySearch l p = .inl i := by
  cases hbs : binarySearch l p with
  | inl i => exact ⟨i, rfl⟩
  | inr i => exact absurd hp (binarySearch_inr hs hbs).2

/-- On a sorted registry, `binary_search` reports the insertion point of every
absent target. -/
theorem binarySearch_of_not_mem {l : List RStr} {p : RStr} (hs : l.Sorted sLt)
    (hp : p ∉ l) : binarySearch l p = .inr (insPoint l p) := by
  cases hbs : binarySearch l p with
  | inl i =>
    obtain ⟨hi, hip⟩ := binarySearch_inl hs hbs
    exact absurd (hip ▸ List.getElem_mem hi) hp
  | inr i =>
    rw [(binarySearch_inr hs hbs).1]

/-! ### Sorted insertion at the reported insertion point -/

instance : IsIrrefl RStr sLt :=
  ⟨sLt_irrefl⟩

theorem sorted_insertIdx (l : List RStr) (p : RStr) (hs : l.Sorted sLt)
    (hp : p ∉ l) : (l.insertIdx (insPoint l p) p).Sorted sLt := by
  induction l with
  | nil =>
    simp [insPoint]
  | cons a t ih =>
    have hhead := (List.sorted_cons.mp hs).1
    have htail := (List.sorted_cons.mp hs).2
    have hpt : p ∉ t := fun h => hp (List.mem_cons_of_mem a h)
    cases hcj : strCmp a p with
    | lt =>
      have hstep : insPoint (a :: t) p = insPoint t p + 1 := by
        unfold insPoint
        rw [List.countP_cons_of_pos]
        exact strLtB_iff.mpr hcj
      rw [hstep, List.insertIdx_succ_cons, List.sorted_cons]
      refine ⟨?_, ih htail hpt⟩
      intro b hb
      rcases (List.mem_insertIdx (insPoint_le_length t p)).mp hb with hb | hb
      · exact hb ▸ hcj
      · exact hhead b hb
    | eq =>
      exact absurd (strCmp_eq_iff.mp hcj ▸ List.mem_cons_self a t) hp
    | gt =>
      have hpa : sLt p a := strCmp_gt_iff.mp hcj
      have hstep : insPoint (a :: t) p = 0 := by
        unfold insPoint
        rw [List.countP_cons_of_neg, List.countP_eq_zero]
        · intro b hb hw
          exact sLt_irrefl p (sLt_trans (sLt_trans hpa (hhead b hb)) (strLtB_iff.mp hw))
        · intro hw
          exact sLt_irrefl p (sLt_trans hpa (strLtB_iff.mp hw))
      rw [hstep, List.insertIdx_zero, List.sorted_cons]
      refine ⟨?_, hs⟩
      intro b hb
      rcases List.mem_cons.mp hb with hb | hb
      · exact hb ▸ hpa
      · exact sLt_trans hpa (hhead b hb)

theorem mem_insertIdx_insPoint (l : List RStr) (p : RStr) :
    p ∈ l.insertIdx (insPoint l p) p :=
  (List.mem_insertIdx (insPoint_le_length l p)).mpr (Or.inl rfl)

/-- The number of registry entries equal to `m`. -/
def countEntries (l : List RStr) (m : RStr) : Nat :=
  l.countP (fun x => x == m)

theorem countEntries_eq_zero {l : List RStr} {m : RStr} (hm : m ∉ l) :
    countEntries l m = 0 := by
  unfold countEntries
  rw [List.countP_eq_zero]
  intro b hb hw
  exact hm ((beq_iff_eq.mp hw) ▸ hb)

theorem countEntries_insertIdx (l : List RStr) (p : RStr) (hp : p ∉ l) :
    countEntries (l.insertIdx (insPoint l p) p) p = 1 := by
  unfold countEntries
  rw [(List.perm_insertIdx p l (insPoint_le_length l p)).countP_eq]
  rw [List.countP_cons_of_pos _ _ (by simp)]
  rw [List.countP_eq_zero.mpr, Nat.zero_add]
  intro b hb hw
  exact hp ((beq_iff_eq.mp hw) ▸ hb)

theorem countEntries_eq_one_of_nodup {l : List RStr} {m : RStr} (hnd : l.Nodup)
    (hm : m ∈ l) : countEntries l m = 1 := by
  induction l with
  | nil => cases hm
  | cons a t ih =>
    rcases List.mem_cons.mp hm with rfl | hm'
    · unfold countEntries
      rw [List.countP_cons_of_pos _ _ (by simp)]
      rw [List.countP_eq_zero.mpr, Nat.zero_add]
      intro b hb hw
      exact (List.nodup_cons.mp hnd).1 ((beq_iff_eq.mp hw) ▸ hb)
    · have hne : (a == m) ≠ true := by
        intro hw
        exact (List.nodup_cons.mp hnd).1 ((beq_iff_eq.mp hw) ▸ hm')
      unfold countEntries
      rw [List.countP_cons_of_neg (fun x => x == m) _ hne]
      exact ih (List.nodup_cons.mp hnd).2 hm'

/-! ### `addModule` characterisation -/

theorem addModule_of_mem {cfg : StdErrLog} {m : RStr} (hs : cfg.modules.Sorted sLt)
    (hm : m ∈ cfg.modules) : cfg.addModule m = cfg := by
  unfold StdErrLog.addModule
  obtain ⟨i, hbs⟩ := binarySearch_of_mem hs hm
  rw [hbs]

theorem addModule_of_not_mem {cfg : StdErrLog} {m : RStr} (hs : cfg.modules.Sorted sLt)
    (hm : m ∉ cfg.modules) :
    cfg.addModule m =
      { cfg with modules := cfg.modules.insertIdx (insPoint cfg.modules m) m } := by
  unfold StdErrLog.addModule
  rw [binarySearch_of_not_mem hs hm]

theorem addModule_sorted {cfg : StdErrLog} (m : RStr) (hs : cfg.modules.Sorted sLt) :
    ((cfg.addModule m).modules).Sorted sLt := by
  by_cases hm : m ∈ cfg.modules
  · rw [addModule_of_mem hs hm]
    exact hs
  · rw [addModule_of_not_mem hs hm]
    exact sorted_insertIdx cfg.modules m hs hm

theorem addModule_mem {cfg : StdErrLog} (m : RStr) (hs : cfg.modules.Sorted sLt) :
    m ∈ (cfg.addModule m).modules := by
  by_cases hm : m ∈ cfg.modules
  · rw [addModule_of_mem hs hm]
    exact hm
  · rw [addModule_of_not_mem hs hm]
    exact mem_insertIdx_insPoint cfg.modules m

theorem addModules_sorted {cfg : StdErrLog} (ms : List RStr)
    (hs : cfg.modules.Sorted sLt) : ((cfg.addModules ms).modules).Sorted sLt := by
  induction ms generalizing cfg with
  | nil => exact hs
  | cons m ms ih => exact ih (addModule_sorted m hs)

/-! ### Claims -/

/-- Claim C1: with a sorted registry `M`, `includes_module` returns allowed
when `M` is empty; otherwise it binary-searches the path in `M` and returns
allowed on an exact match, not-allowed when the insertion point is 0, and for
insertion point `i > 0` allowed exactly when the path starts with `M[i-1]`
as a literal string prefix. -/
theorem includes_module_spec (cfg : StdErrLog) (p : RStr)
    (hs : cfg.modules.Sorted sLt) :
    (cfg.modules = [] → cfg.includes_module p = true) ∧
    (p ∈ cfg.modules → cfg.includes_module p = true) ∧
    (p ∉ cfg.modules → cfg.modules ≠ [] →
      (insPoint cfg.modules p = 0 → cfg.includes_module p = false) ∧
      (∀ j, insPoint cfg.modules p = j + 1 →
        ∃ hj : j < cfg.modules.length,
          cfg.includes_module p = strStartsWith p cfg.modules[j])) := by
  refine ⟨?_, ?_, ?_⟩
  · intro h
    simp [StdErrLog.includes_module, h]
  · intro hm
    obtain ⟨i, hbs⟩ := binarySearch_of_mem hs hm
    by_cases he : cfg.modules.isEmpty <;>
      simp [StdErrLog.includes_module, he, hbs]
  · intro hnm hne
    have hbs := binarySearch_of_not_mem hs hnm
    have he : cfg.modules.isEmpty = false := by
      cases hcm : cfg.modules with
      | nil => exact absurd hcm hne
      | cons a t => rfl
    constructor
    · intro h0
      simp [StdErrLog.includes_module, he, hbs, h0]
    · intro j hj
      have hjlen : j < cfg.modules.length := by
        have := insPoint_le_length cfg.modules p
        omega
      refine ⟨hjlen, ?_⟩
      simp [StdErrLog.includes_module, he, hbs, hj,
        List.getElem?_eq_getElem hjlen]

/-- Witness for C1: the registry ["a::b", "a::c"] is sorted and the exact
match "a::b" is allowed. -/
theorem includes_module_spec_witness :
    ({ StdErrLog.new with modules := [rstr "a::b", rstr "a::c"] } :
        StdErrLog).modules.Sorted sLt ∧
    ({ StdErrLog.new with modules := [rstr "a::b", rstr "a::c"] } :
        StdErrLog).includes_module (rstr "a::b") = true :=
  ⟨by decide,
    (includes_module_spec { StdErrLog.new with modules := [rstr "a::b", rstr "a::c"] }
      (rstr "a::b") (by decide)).2.1 (by decide)⟩

/-- Counterexample to claim C2 as stated: with registry {"a::b", "a::c"} the
filter DOES allow path "a::bx" — the code uses a bare `starts_with` with no
path-separator check — while the claim says "a::bx" is NOT allowed. -/
theorem module_filter_bx_counterexample :
    ({ StdErrLog.new with modules := [rstr "a::b", rstr "a::c"] } :
        StdErrLog).includes_module (rstr "a::bx") = true := by
  decide

/-- Claim C2 (amended): with registry {"a::b", "a::c"}, path "a::b::d" is
allowed, path "a::bx" is ALSO allowed (literal string-prefix semantics),
path "z" is not allowed, and "a::b" itself is allowed. -/
theorem module_filter_examples :
    ({ StdErrLog.new with modules := [rstr "a::b", rstr "a::c"] } :
        StdErrLog).includes_module (rstr "a::b::d") = true ∧
    ({ StdErrLog.new with modules := [rstr "a::b", rstr "a::c"] } :
        StdErrLog).includes_module (rstr "a::bx") = true ∧
    ({ StdErrLog.new with modules := [rstr "a::b", rstr "a::c"] } :
        StdErrLog).includes_module (rstr "z") = false ∧
    ({ StdErrLog.new with modules := [rstr "a::b", rstr "a::c"] } :
        StdErrLog).includes_module (rstr "a::b") = true := by
  decide

/-- Counterexample to claim C3 as stated: when the set-color operation fails,
the `log` call does not return normally — `set_color(..).expect(..)` panics. -/
theorem log_panics_on_color_failure :
    StdErrLog.new.logRecord
      { setColorOk := false, writeOk := true, resetOk := true }
      { level := .Error, module_path := none, args := "message" } =
      .panicked "failed to set color" := by
  decide

/-- Claim C3 (amended): failures of the data writes are never propagated to
the caller — the call's result does not depend on `writeOk` at all — and when
the two color operations succeed the call always returns normally; but a
set-color or reset-color failure aborts the call with a panic (`expect`). -/
theorem log_write_failure_swallowed (cfg : StdErrLog) (env : StreamBehavior)
    (record : Record) (hset : env.setColorOk = true) (hreset : env.resetOk = true) :
    (∃ out, cfg.logRecord env record = .returned out) ∧
    (∀ b, cfg.logRecord { env with writeOk := b } record =
      cfg.logRecord env record) := by
  refine ⟨?_, fun b => rfl⟩
  unfold StdErrLog.logRecord
  rw [hset, hreset]
  repeat' first
    | split
    | (dsimp only [])
  all_goals first
    | (exact ⟨_, rfl⟩)
    | simp_all

/-- Witness for C3 (amended) at a concrete configuration and record. -/
theorem log_write_failure_swallowed_witness :
    ({ setColorOk := true, writeOk := false, resetOk := true } :
        StreamBehavior).setColorOk = true ∧
    ({ setColorOk := true, writeOk := false, resetOk := true } :
        StreamBehavior).resetOk = true ∧
    ((∃ out, StdErrLog.new.logRecord
        { setColorOk := true, writeOk := false, resetOk := true }
        { level := .Error, module_path := none, args := "m" } = .returned out) ∧
      (∀ b, StdErrLog.new.logRecord
          { setColorOk := true, writeOk := b, resetOk := true }
          { level := .Error, module_path := none, args := "m" } =
        StdErrLog.new.logRecord
          { setColorOk := true, writeOk := false, resetOk := true }
          { level := .Error, module_path := none, args := "m" })) :=
  ⟨rfl, rfl,
    log_write_failure_swallowed StdErrLog.new
      { setColorOk := true, writeOk := false, resetOk := true }
      { level := .Error, module_path := none, args := "m" } rfl rfl⟩

/-- Counterexample to claim C4 as stated: after a first installation at
threshold `Error`, a second `init` at verbosity 4 fails with a setup error,
yet the global maximum severity becomes `Trace` — the failed re-installation
DOES change the threshold, because `set_max_level` runs before
`set_boxed_logger`. -/
theorem init_overwrites_threshold_counterexample :
    ((StdErrLog.new.init { maxLevel := .Off, logger := none }).2.maxLevel =
      .Error) ∧
    (((StdErrLog.new.setVerbosity 4).init
        (StdErrLog.new.init { maxLevel := .Off, logger := none }).2).1 =
      .error .mk) ∧
    (((StdErrLog.new.setVerbosity 4).init
        (StdErrLog.new.init { maxLevel := .Off, logger := none }).2).2.maxLevel =
      .Trace) := by
  decide

/-- Claim C4 (amended): when a logger is already installed, `init` returns a
setup error and the installed logger is unchanged, but the global maximum
severity is overwritten with the new configuration's effective threshold
(it does not remain at the first installation's value). -/
theorem reinit_fails_but_overwrites_threshold (cfg l0 : StdErrLog)
    (g : GlobalState) (h : g.logger = some l0) :
    (cfg.init g).1 = .error .mk ∧
    (cfg.init g).2.logger = some l0 ∧
    (cfg.init g).2.maxLevel = cfg.log_level_filter := by
  unfold StdErrLog.init
  simp [h]

/-- Witness for C4 (amended) at a concrete occupied global state. -/
theorem reinit_fails_but_overwrites_threshold_witness :
    ({ maxLevel := .Error, logger := some StdErrLog.new } :
        GlobalState).logger = some StdErrLog.new ∧
    (((StdErrLog.new.setVerbosity 4).init
        { maxLevel := .Error, logger := some StdErrLog.new }).1 = .error .mk ∧
      ((StdErrLog.new.setVerbosity 4).init
        { maxLevel := .Error, logger := some StdErrLog.new }).2.logger =
        some StdErrLog.new ∧
      ((StdErrLog.new.setVerbosity 4).init
        { maxLevel := .Error, logger := some StdErrLog.new }).2.maxLevel =
        (StdErrLog.new.setVerbosity 4).log_level_filter) :=
  ⟨rfl,
    reinit_fails_but_overwrites_threshold (StdErrLog.new.setVerbosity 4)
      StdErrLog.new { maxLevel := .Error, logger := some StdErrLog.new } rfl⟩

/-- Claim C5: the severity mapping yields Error for 0, Warn for 1, Info for 2,
Debug for 3, and Trace for every verbosity ≥ 4; no input is rejected. -/
theorem verbosity_mapping (cfg : StdErrLog) (v : Nat) (h4 : 4 ≤ v) :
    (cfg.setVerbosity 0).verbosity = .Error ∧
    (cfg.setVerbosity 1).verbosity = .Warn ∧
    (cfg.setVerbosity 2).verbosity = .Info ∧
    (cfg.setVerbosity 3).verbosity = .Debug ∧
    (cfg.setVerbosity v).verbosity = .Trace := by
  obtain ⟨k, rfl⟩ : ∃ k, v = k + 4 := ⟨v - 4, by omega⟩
  exact ⟨rfl, rfl, rfl, rfl, rfl⟩

/-- Witness for C5 at verbosity 7. -/
theorem verbosity_mapping_witness :
    4 ≤ 7 ∧
    ((StdErrLog.new.setVerbosity 0).verbosity = .Error ∧
      (StdErrLog.new.setVerbosity 1).verbosity = .Warn ∧
      (StdErrLog.new.setVerbosity 2).verbosity = .Info ∧
      (StdErrLog.new.setVerbosity 3).verbosity = .Debug ∧
      (StdErrLog.new.setVerbosity 7).verbosity = .Trace) :=
  ⟨by decide, verbosity_mapping StdErrLog.new 7 (by decide)⟩

/-- Claim C6: with the quiet flag set, the effective threshold is `Off`, every
event of every severity is rejected by `enabled`, and the `log` call writes
nothing, regardless of the configured verbosity. -/
theorem quiet_forces_off (cfg : StdErrLog) (env : StreamBehavior)
    (record : Record) (h : cfg.quiet = true) :
    cfg.log_level_filter = .Off ∧
    cfg.enabled record.level = false ∧
    cfg.logRecord env record = .returned [] := by
  have hf : cfg.log_level_filter = .Off := by
    simp [StdErrLog.log_level_filter, h]
  have he : cfg.enabled record.level = false := by
    unfold StdErrLog.enabled
    rw [hf]
    cases record.level <;> rfl
  refine ⟨hf, he, ?_⟩
  unfold StdErrLog.logRecord
  rw [he]
  rfl

/-- Witness for C6 at a quiet logger with maximal verbosity and a Trace
event. -/
theorem quiet_forces_off_witness :
    ((StdErrLog.new.setVerbosity 4).setQuiet true).quiet = true ∧
    (((StdErrLog.new.setVerbosity 4).setQuiet true).log_level_filter = .Off ∧
      ((StdErrLog.new.setVerbosity 4).setQuiet true).enabled
        ({ level := .Trace, module_path := none, args := "m" } : Record).level =
        false ∧
      ((StdErrLog.new.setVerbosity 4).setQuiet true).logRecord
        { setColorOk := true, writeOk := true, resetOk := true }
        { level := .Trace, module_path := none, args := "m" } = .returned []) :=
  ⟨rfl,
    quiet_forces_off ((StdErrLog.new.setVerbosity 4).setQuiet true)
      { setColorOk := true, writeOk := true, resetOk := true }
      { level := .Trace, module_path := none, args := "m" } rfl⟩

/-- Claim C7: cloning a configuration empties the per-thread sink registry
while preserving the severity threshold, quiet flag, timestamp granularity,
color mode and module registry. -/
theorem clone_resets_writer (cfg : StdErrLog) :
    cfg.clone.writer = [] ∧
    cfg.clone.verbosity = cfg.verbosity ∧
    cfg.clone.quiet = cfg.quiet ∧
    cfg.clone.timestamp = cfg.timestamp ∧
    cfg.clone.color_choice = cfg.color_choice ∧
    cfg.clone.modules = cfg.modules :=
  ⟨rfl, rfl, rfl, rfl, rfl, rfl⟩

/-- Claim C8: starting from a sorted registry, every registration (single or
iterated) preserves sortedness, registering the same name twice is a no-op
the second time, and the registered name occurs exactly once. -/
theorem module_registry_invariant (cfg : StdErrLog) (m : RStr) (ms : List RStr)
    (hs : cfg.modules.Sorted sLt) :
    ((cfg.addModule m).modules).Sorted sLt ∧
    ((cfg.addModules ms).modules).Sorted sLt ∧
    (cfg.addModule m).addModule m = cfg.addModule m ∧
    countEntries ((cfg.addModule m).modules) m = 1 := by
  have h1 := addModule_sorted m hs
  refine ⟨h1, addModules_sorted ms hs, ?_, ?_⟩
  · exact addModule_of_mem h1 (addModule_mem m hs)
  · by_cases hm : m ∈ cfg.modules
    · rw [addModule_of_mem hs hm]
      exact countEntries_eq_one_of_nodup hs.nodup hm
    · rw [addModule_of_not_mem hs hm]
      exact countEntries_insertIdx cfg.modules m hm

/-- Witness for C8 on the empty registry with names "b" then "a". -/
theorem module_registry_invariant_witness :
    StdErrLog.new.modules.Sorted sLt ∧
    (((StdErrLog.new.addModule (rstr "b")).modules).Sorted sLt ∧
      ((StdErrLog.new.addModules [rstr "b", rstr "a"]).modules).Sorted sLt ∧
      (StdErrLog.new.addModule (rstr "b")).addModule (rstr "b") =
        StdErrLog.new.addModule (rstr "b") ∧
      countEntries ((StdErrLog.new.addModule (rstr "b")).modules) (rstr "b") = 1) :=
  ⟨by decide,
    module_registry_invariant StdErrLog.new (rstr "b") [rstr "b", rstr "a"]
      (by decide)⟩

/-- Claim C10: a freshly constructed logger has threshold Error, quiet false,
timestamps off, an empty module registry and auto color detection; `Default`
yields the same value. -/
theorem new_defaults :
    StdErrLog.new.verbosity = .Error ∧
    StdErrLog.new.quiet = false ∧
    StdErrLog.new.timestamp = .Off ∧
    StdErrLog.new.modules = [] ∧
    StdErrLog.new.color_choice = .Auto ∧
    StdErrLog.default = StdErrLog.new :=
  ⟨rfl, rfl, rfl, rfl, rfl, rfl⟩

end Stderrlog
